import Mathlib

/-!
Verification of the playback state machine of a command-line MP3 player
(`src/mp3.py`).  The player holds an ordered track list, a current index,
a playback-status string and a loop flag; a background monitor polls the
audio engine's busy signal and auto-advances at end of track.

The embedding is shallow: each Python method becomes a Lean function from
the player state to the new player state together with the ordered list of
observable events the method performs — lock acquire/release, reads and
writes of the two shared fields (`current_index`, `state`), calls into the
external `pygame.mixer.music` engine, and printed messages.  The engine is
external, so its answers (the `get_busy()` result, and whether a
`music.load` call succeeds) are explicit parameters of the monitor cycle.
-/

/-- Playback status: the `self.state` string field of `MP3Player`, one of
`"stopped"`, `"playing"`, `"paused"`. -/
inductive Status where
  | stopped
  | playing
  | paused
deriving DecidableEq, Repr

/-- The string the status field holds in the Python source (used by the
`status()` report). -/
def Status.text : Status → String
  | .stopped => "stopped"
  | .playing => "playing"
  | .paused => "paused"

/-- The mutable state of `MP3Player`: `tracks` (immutable after `__init__`,
modelled as the list of file names), the `loop` flag, `current_index`
(`Optional[int]`) and the playback status. -/
structure Player where
  tracks : List String
  loop : Bool
  current_index : Option Nat
  state : Status
deriving DecidableEq, Repr

/-- Observable events an operation performs, in source order.  `readCI`,
`writeCI`, `readStatus`, `writeStatus` are accesses to the shared fields
`self.current_index` and `self.state`; the `eng*` events are the calls into
`pygame.mixer.music`; `msg` is a `print`. -/
inductive Event where
  | lockAcquire
  | lockRelease
  | readCI
  | writeCI
  | readStatus
  | writeStatus
  | engLoad (track : String)
  | engPlay
  | engPause
  | engUnpause
  | engStop
  | engBusy (busy : Bool)
  | msg (text : String)
deriving DecidableEq, Repr

/-- Any interaction with the external engine, the read-only
`get_busy()` query included. -/
def Event.isEngineEvent : Event → Bool
  | .engLoad _ => true
  | .engPlay => true
  | .engPause => true
  | .engUnpause => true
  | .engStop => true
  | .engBusy _ => true
  | _ => false

/-- An engine command: one of the mutating engine calls
(`load`/`play`/`pause`/`unpause`/`stop`), excluding the read-only
`get_busy()` query. -/
def Event.isEngineCommand : Event → Bool
  | .engLoad _ => true
  | .engPlay => true
  | .engPause => true
  | .engUnpause => true
  | .engStop => true
  | _ => false

/-- `find_mp3_files`: `sorted(directory.glob("*.mp3"))`.  The directory is
modelled as the list of its entry names in arbitrary (scan) order;
`glob("*.mp3")` keeps exactly the names ending in `".mp3"` (pathlib's glob
does not skip hidden files), and `sorted` on paths sharing the directory
prefix is lexicographic comparison of the names. -/
def find_mp3_files (directory : List String) : List String :=
  (directory.filter fun name => name.endsWith ".mp3").mergeSort fun a b => decide (a ≤ b)

/-- `MP3Player.__init__`: scan the directory, set
`current_index = 0 if self.tracks else None`, start stopped. -/
def init (directory : List String) (loop : Bool) : Player :=
  let tracks := find_mp3_files directory
  { tracks := tracks
    loop := loop
    current_index := if tracks.isEmpty then none else some 0
    state := .stopped }

/-- `self.tracks[i]`.  Python raises `IndexError` for `i` out of range; the
model returns `""` there, and every theorem that touches a track carries
the in-range hypothesis (the state invariant), under which the default is
never taken. -/
def Player.trackAt (p : Player) (i : Nat) : String :=
  p.tracks.getD i ""

/-- `MP3Player.play(index)`.  Empty playlist → report and return (before the
lock).  Under the lock: a given out-of-range index → report and return; a
given in-range index is stored; then the current track is loaded and played
and the status set to playing.  With `index = None` and `current_index =
None` Python would raise `TypeError` when indexing; the model's `getD 0` is
never taken under the state invariant. -/
def play (p : Player) (index : Option Int) : Player × List Event :=
  if p.tracks.isEmpty then
    (p, [.msg "Playlist is empty."])
  else
    match index with
    | some i =>
      if i < 0 ∨ (p.tracks.length : Int) ≤ i then
        (p, [.lockAcquire, .msg s!"Index {i} out of range.", .lockRelease])
      else
        let p1 : Player := { p with current_index := some i.toNat }
        let track := p1.trackAt i.toNat
        ({ p1 with state := .playing },
         [.lockAcquire, .writeCI, .readCI, .engLoad track, .engPlay, .writeStatus,
          .msg ("Playing: " ++ track), .lockRelease])
    | none =>
      let track := p.trackAt (p.current_index.getD 0)
      ({ p with state := .playing },
       [.lockAcquire, .readCI, .engLoad track, .engPlay, .writeStatus,
        .msg ("Playing: " ++ track), .lockRelease])

/-- `MP3Player.pause`: only from the playing state; otherwise report and
change nothing. -/
def pause (p : Player) : Player × List Event :=
  if p.state ≠ .playing then
    (p, [.lockAcquire, .readStatus, .msg "Nothing is currently playing.", .lockRelease])
  else
    ({ p with state := .paused },
     [.lockAcquire, .readStatus, .engPause, .writeStatus, .msg "Paused.", .lockRelease])

/-- `MP3Player.resume`: only from the paused state; otherwise report and
change nothing. -/
def resume (p : Player) : Player × List Event :=
  if p.state ≠ .paused then
    (p, [.lockAcquire, .readStatus, .msg "Player is not paused.", .lockRelease])
  else
    ({ p with state := .playing },
     [.lockAcquire, .readStatus, .engUnpause, .writeStatus, .msg "Resumed.", .lockRelease])

/-- `MP3Player.stop`: unconditional engine stop and status reset. -/
def stop (p : Player) : Player × List Event :=
  ({ p with state := .stopped },
   [.lockAcquire, .engStop, .writeStatus, .msg "Stopped.", .lockRelease])

/-- `MP3Player._play_current`: load and start `tracks[current_index]`, set
playing, notify.  Called with the lock already held, so it emits no lock
events of its own. -/
def play_current (p : Player) : Player × List Event :=
  let track := p.trackAt (p.current_index.getD 0)
  ({ p with state := .playing },
   [.readCI, .engLoad track, .engPlay, .writeStatus, .msg ("Playing: " ++ track)])

/-- `MP3Player.next_track`: `current_index = (current_index + 1) % len`,
then `_play_current()`; report when no track is loaded. -/
def next_track (p : Player) : Player × List Event :=
  match p.current_index with
  | none => (p, [.lockAcquire, .readCI, .msg "No tracks available.", .lockRelease])
  | some ci =>
    let p1 : Player := { p with current_index := some ((ci + 1) % p.tracks.length) }
    let r := play_current p1
    (r.1, [.lockAcquire, .readCI, .readCI, .writeCI] ++ r.2 ++ [.lockRelease])

/-- `MP3Player.previous_track`: `current_index = (current_index - 1) % len`
(Python's `%` on a positive modulus is the nonnegative remainder, which is
`Int.emod` here), then `_play_current()`. -/
def previous_track (p : Player) : Player × List Event :=
  match p.current_index with
  | none => (p, [.lockAcquire, .readCI, .msg "No tracks available.", .lockRelease])
  | some ci =>
    let p1 : Player :=
      { p with current_index := some ((((ci : Int) - 1) % (p.tracks.length : Int)).toNat) }
    let r := play_current p1
    (r.1, [.lockAcquire, .readCI, .readCI, .writeCI] ++ r.2 ++ [.lockRelease])

/-- `MP3Player.list_tracks`: per index, compare it against `current_index`
(reading the status only when they match, as Python's `and` short-circuits)
and print the line.  Note: the source takes no lock here. -/
def list_tracks (p : Player) : List Event :=
  if p.tracks.isEmpty then
    [.msg "No MP3 files found."]
  else
    (List.range p.tracks.length).flatMap fun idx =>
      let reads :=
        if some idx = p.current_index then [Event.readCI, Event.readStatus]
        else [Event.readCI]
      let marker :=
        if some idx = p.current_index ∧ p.state = .playing then "->" else "  "
      reads ++ [Event.msg (marker ++ " [" ++ toString idx ++ "] " ++ p.trackAt idx)]

/-- `MP3Player.status`: report the current track and state; report "No
track loaded." when `current_index` is `None`.  Note: the source takes no
lock here. -/
def status (p : Player) : List Event :=
  match p.current_index with
  | none => [.readCI, .msg "No track loaded."]
  | some ci =>
    [.readCI, .readCI, .msg ("Track: " ++ p.trackAt ci),
     .readStatus, .msg ("State: " ++ p.state.text)]

/-- Result of one monitor cycle: the player state when the cycle ends, the
cycle's events, and whether an uncaught exception escaped the cycle body
(`_monitor_playback` has no handler, so such an exception terminates the
monitor thread). -/
structure CycleOut where
  player : Player
  events : List Event
  crashed : Bool
deriving DecidableEq, Repr

/-- One iteration of the loop body of `MP3Player._monitor_playback` (after
the sleep).  `busy` is the answer of `pygame.mixer.music.get_busy()`;
`loadOk` tells whether the `music.load` call inside `_play_current`
succeeds (pygame raises `pygame.error` on an unreadable file).  On
`loadOk = false` the index has already been advanced, the `with` block
releases the lock while unwinding, and the exception propagates out of the
loop.  The last-index comparison is against `len(self.tracks) - 1` over the
integers, exactly as in Python; with an empty playlist Python's advance
would raise `ZeroDivisionError`, a state unreachable under the invariant. -/
def monitor_cycle_f (p : Player) (busy : Bool) (loadOk : Bool) : CycleOut :=
  if p.state ≠ .playing then
    ⟨p, [.lockAcquire, .readStatus, .lockRelease], false⟩
  else if busy then
    ⟨p, [.lockAcquire, .readStatus, .engBusy true, .lockRelease], false⟩
  else
    match p.current_index with
    | none =>
      ⟨p, [.lockAcquire, .readStatus, .engBusy false, .readCI, .lockRelease], false⟩
    | some ci =>
      if (ci : Int) = (p.tracks.length : Int) - 1 ∧ p.loop = false then
        ⟨{ p with state := .stopped },
         [.lockAcquire, .readStatus, .engBusy false, .readCI, .readCI, .writeStatus,
          .lockRelease], false⟩
      else
        let p1 : Player := { p with current_index := some ((ci + 1) % p.tracks.length) }
        if loadOk then
          let r := play_current p1
          ⟨r.1,
           [.lockAcquire, .readStatus, .engBusy false, .readCI, .readCI, .readCI, .writeCI]
             ++ r.2 ++ [.lockRelease], false⟩
        else
          ⟨p1,
           [.lockAcquire, .readStatus, .engBusy false, .readCI, .readCI, .readCI, .writeCI,
            .readCI, .engLoad (p1.trackAt (p1.current_index.getD 0)), .lockRelease], true⟩

/-- The monitor cycle when every engine call succeeds. -/
def monitor_cycle (p : Player) (busy : Bool) : Player × List Event :=
  ((monitor_cycle_f p busy true).player, (monitor_cycle_f p busy true).events)

/-- `_monitor_playback`'s loop, driven by an oracle of `(busy, loadOk)`
engine answers, one per sleep tick.  Returns the final player state and
whether the thread died of an uncaught exception; after a crash the
remaining ticks are never processed. -/
def monitor_loop_f (p : Player) : List (Bool × Bool) → Player × Bool
  | [] => (p, false)
  | (busy, loadOk) :: rest =>
    let r := monitor_cycle_f p busy loadOk
    if r.crashed then (r.player, true) else monitor_loop_f r.player rest

/-- The spec's state invariant: `current_index` is `None` iff the playlist
is empty, and otherwise lies in `[0, N)`. -/
def StateInv (p : Player) : Prop :=
  match p.current_index with
  | none => p.tracks = []
  | some i => p.tracks ≠ [] ∧ i < p.tracks.length

instance (p : Player) : Decidable (StateInv p) :=
  match hci : p.current_index with
  | none => decidable_of_iff (p.tracks = []) (by simp [StateInv, hci])
  | some i => decidable_of_iff (p.tracks ≠ [] ∧ i < p.tracks.length) (by simp [StateInv, hci])

/-- Lock discipline of an event trace: lock releases balance acquires and
every read or write of the shared fields (`current_index`, `state`) happens
while the lock is held. -/
def wellLockedFrom : List Event → Nat → Bool
  | [], _ => true
  | e :: rest, depth =>
    match e with
    | .lockAcquire => wellLockedFrom rest (depth + 1)
    | .lockRelease => decide (0 < depth) && wellLockedFrom rest (depth - 1)
    | .readCI => decide (0 < depth) && wellLockedFrom rest depth
    | .writeCI => decide (0 < depth) && wellLockedFrom rest depth
    | .readStatus => decide (0 < depth) && wellLockedFrom rest depth
    | .writeStatus => decide (0 < depth) && wellLockedFrom rest depth
    | _ => wellLockedFrom rest depth

/-- A trace is well locked when it is lock-disciplined starting outside the
lock. -/
def wellLocked (evs : List Event) : Bool :=
  wellLockedFrom evs 0

/-- C1: for any playlist and any valid index `i` in `[0, N)`, `play(i)` sets
`current_index = i`, sets the playback status to playing, and the engine
commands it issues are exactly `load` of track `i` followed by `play`. -/
theorem play_valid_index (p : Player) (i : Nat) (hi : i < p.tracks.length) :
    (play p (some (i : Int))).1.current_index = some i ∧
    (play p (some (i : Int))).1.state = Status.playing ∧
    (play p (some (i : Int))).2.filter Event.isEngineCommand
      = [Event.engLoad (p.trackAt i), Event.engPlay] := by
  have hne : p.tracks.isEmpty = false := by
    cases h : p.tracks with
    | nil => rw [h] at hi; simp at hi
    | cons a l => simp [h]
  have hcond : ¬ ((i : Int) < 0 ∨ p.tracks.length ≤ i) := by
    omega
  simp [play, hne, hcond, Player.trackAt, Event.isEngineCommand, List.filter]

/-- C1 witness: playing index 1 of a two-track playlist. -/
theorem play_valid_index_witness :
    (play ⟨["a.mp3", "b.mp3"], false, some 0, Status.stopped⟩ (some 1)).1.current_index
      = some 1 ∧
    (play ⟨["a.mp3", "b.mp3"], false, some 0, Status.stopped⟩ (some 1)).1.state
      = Status.playing ∧
    (play ⟨["a.mp3", "b.mp3"], false, some 0, Status.stopped⟩ (some 1)).2.filter
      Event.isEngineCommand = [Event.engLoad "b.mp3", Event.engPlay] :=
  play_valid_index ⟨["a.mp3", "b.mp3"], false, some 0, Status.stopped⟩ 1 (by decide)

/-- C2: playing at the last index with looping off, a monitor cycle that sees
the engine idle stops the player and leaves `current_index` alone; its only
engine interaction is the `get_busy()` query of the hypothesis — no engine
command (load/play/pause/unpause/stop) is issued in that cycle. -/
theorem monitor_last_track_stops (p : Player)
    (hst : p.state = Status.playing)
    (hne : p.tracks ≠ [])
    (hci : p.current_index = some (p.tracks.length - 1))
    (hloop : p.loop = false) :
    (monitor_cycle p false).1.state = Status.stopped ∧
    (monitor_cycle p false).1.current_index = p.current_index ∧
    (monitor_cycle p false).2.filter Event.isEngineEvent = [Event.engBusy false] := by
  have hlen : 0 < p.tracks.length := List.length_pos.mpr hne
  have hcast : ((p.tracks.length - 1 : Nat) : Int) = (p.tracks.length : Int) - 1 := by
    omega
  simp [monitor_cycle, monitor_cycle_f, hst, hci, hloop, hcast, Event.isEngineEvent]

/-- C2 witness: two tracks, playing the last one, loop off, engine idle. -/
theorem monitor_last_track_stops_witness :
    (monitor_cycle ⟨["a.mp3", "b.mp3"], false, some 1, Status.playing⟩ false).1.state
      = Status.stopped ∧
    (monitor_cycle ⟨["a.mp3", "b.mp3"], false, some 1, Status.playing⟩ false).1.current_index
      = some 1 ∧
    (monitor_cycle ⟨["a.mp3", "b.mp3"], false, some 1, Status.playing⟩ false).2.filter
      Event.isEngineEvent = [Event.engBusy false] :=
  monitor_last_track_stops ⟨["a.mp3", "b.mp3"], false, some 1, Status.playing⟩
    rfl (by decide) (by decide) rfl

/-- C3: playing with either a later track remaining or looping on, a monitor
cycle that sees the engine idle advances `current_index` to
`(current_index + 1) % N`, loads and plays the new track, and stays playing;
from the last index with looping on the index wraps to `0`. -/
theorem monitor_advances_and_plays (p : Player) (ci : Nat)
    (hst : p.state = Status.playing)
    (hci : p.current_index = some ci)
    (hlt : ci < p.tracks.length)
    (hcond : ci < p.tracks.length - 1 ∨ p.loop = true) :
    (monitor_cycle p false).1.current_index = some ((ci + 1) % p.tracks.length) ∧
    (monitor_cycle p false).1.state = Status.playing ∧
    (monitor_cycle p false).2.filter Event.isEngineCommand
      = [Event.engLoad (p.trackAt ((ci + 1) % p.tracks.length)), Event.engPlay] ∧
    (ci = p.tracks.length - 1 → (monitor_cycle p false).1.current_index = some 0) := by
  have h2 : ¬ ((ci : Int) = (p.tracks.length : Int) - 1 ∧ p.loop = false) := by
    rcases hcond with h | h
    · intro hc
      have := hc.1
      omega
    · intro hc
      rw [h] at hc
      simp at hc
  refine ⟨?_, ?_, ?_, ?_⟩
  · simp [monitor_cycle, monitor_cycle_f, hst, hci, h2, play_current]
  · simp [monitor_cycle, monitor_cycle_f, hst, hci, h2, play_current]
  · simp [monitor_cycle, monitor_cycle_f, hst, hci, h2, play_current, Player.trackAt,
      Event.isEngineCommand, List.filter]
  · intro h
    have h3 : ci + 1 = p.tracks.length := by omega
    simp [monitor_cycle, monitor_cycle_f, hst, hci, h2, play_current, h3, Nat.mod_self]

/-- C3 witness: three tracks with looping on, playing the last one, engine
idle: the index wraps to `0` and track `0` is loaded and played. -/
theorem monitor_advances_and_plays_witness :
    (monitor_cycle ⟨["a.mp3", "b.mp3", "c.mp3"], true, some 2, Status.playing⟩
      false).1.current_index = some 0 ∧
    (monitor_cycle ⟨["a.mp3", "b.mp3", "c.mp3"], true, some 2, Status.playing⟩
      false).1.state = Status.playing ∧
    (monitor_cycle ⟨["a.mp3", "b.mp3", "c.mp3"], true, some 2, Status.playing⟩
      false).2.filter Event.isEngineCommand
      = [Event.engLoad "a.mp3", Event.engPlay] ∧
    (2 = 2 →
      (monitor_cycle ⟨["a.mp3", "b.mp3", "c.mp3"], true, some 2, Status.playing⟩
        false).1.current_index = some 0) :=
  monitor_advances_and_plays ⟨["a.mp3", "b.mp3", "c.mp3"], true, some 2, Status.playing⟩
    2 rfl rfl (by decide) (Or.inr rfl)

/-- C4 (code divergence): `_monitor_playback` has no exception handler, so a
`pygame.error` raised by `music.load` inside `_play_current` escapes the
loop body and terminates the monitor thread.  At the state below (playing
track 0 of 2, loop off), a cycle that sees the engine idle and whose load
fails crashes the thread and a following healthy cycle is never processed:
the final state still shows the advanced index with status playing.  The
third conjunct shows the run the claim describes — the same two cycles with
the load succeeding — ending stopped at the playlist end. -/
theorem monitor_thread_dies_on_load_failure :
    (monitor_cycle_f ⟨["a.mp3", "b.mp3"], false, some 0, Status.playing⟩ false false).crashed
      = true ∧
    monitor_loop_f ⟨["a.mp3", "b.mp3"], false, some 0, Status.playing⟩
      [(false, false), (false, true)]
      = (⟨["a.mp3", "b.mp3"], false, some 1, Status.playing⟩, true) ∧
    monitor_loop_f ⟨["a.mp3", "b.mp3"], false, some 0, Status.playing⟩
      [(false, true), (false, true)]
      = (⟨["a.mp3", "b.mp3"], false, some 1, Status.stopped⟩, false) := by
  decide

/-- Setting only the status field preserves the state invariant. -/
lemma stateInv_set_state (p : Player) (st : Status) (h : StateInv p) :
    StateInv { p with state := st } := h

/-- Pointing `current_index` at a valid index preserves the state
invariant. -/
lemma stateInv_set_index (p : Player) (ci : Nat) (h1 : p.tracks ≠ [])
    (h2 : ci < p.tracks.length) : StateInv { p with current_index := some ci } := by
  simp [StateInv]
  exact ⟨h1, h2⟩

/-- C5: the state invariant — `current_index` is `None` iff the playlist is
empty, and otherwise lies in `[0, N)` — holds at construction and is
preserved by `play`, `pause`, `resume`, `stop`, `next_track`,
`previous_track`, and every monitor cycle (crashing or not). -/
theorem operations_preserve_stateInv (d : List String) (lp : Bool) (p : Player)
    (i : Option Int) (b ok : Bool) (h : StateInv p) :
    StateInv (init d lp) ∧
    StateInv (play p i).1 ∧
    StateInv (pause p).1 ∧
    StateInv (resume p).1 ∧
    StateInv (stop p).1 ∧
    StateInv (next_track p).1 ∧
    StateInv (previous_track p).1 ∧
    StateInv (monitor_cycle_f p b ok).player := by
  have hinit : StateInv (init d lp) := by
    unfold init
    cases hh : (find_mp3_files d).isEmpty with
    | true =>
      have he : find_mp3_files d = [] := by simpa using hh
      simp [StateInv, hh, he]
    | false =>
      have hne : find_mp3_files d ≠ [] := by simpa using hh
      simp [StateInv, hh]
      exact ⟨hne, List.length_pos.mpr hne⟩
  have hplay : StateInv (play p i).1 := by
    cases hemp : p.tracks.isEmpty with
    | true =>
      simp [play, hemp]
      exact h
    | false =>
      have hne : p.tracks ≠ [] := by simpa using hemp
      rcases i with _ | j
      · simpa [play, hemp] using stateInv_set_state p .playing h
      · by_cases hcond : j < 0 ∨ (p.tracks.length : Int) ≤ j
        · simp [play, hemp, hcond]
          exact h
        · rcases not_or.mp hcond with ⟨h1, h2⟩
          have hj : j.toNat < p.tracks.length := by omega
          simp [play, hemp, hcond]
          exact stateInv_set_state _ _ (stateInv_set_index p j.toNat hne hj)
  have hpause : StateInv (pause p).1 := by
    unfold pause
    split
    · exact h
    · exact stateInv_set_state p .paused h
  have hresume : StateInv (resume p).1 := by
    unfold resume
    split
    · exact h
    · exact stateInv_set_state p .playing h
  have hstop : StateInv (stop p).1 := stateInv_set_state p .stopped h
  have hnext : StateInv (next_track p).1 := by
    unfold next_track
    cases hci : p.current_index with
    | none => exact h
    | some ci =>
      have h' : p.tracks ≠ [] ∧ ci < p.tracks.length := by
        have hh := h
        simp [StateInv, hci] at hh
        exact hh
      have hlen : 0 < p.tracks.length := List.length_pos.mpr h'.1
      exact stateInv_set_state _ _ (stateInv_set_index p _ h'.1 (Nat.mod_lt _ hlen))
  have hprev : StateInv (previous_track p).1 := by
    unfold previous_track
    cases hci : p.current_index with
    | none => exact h
    | some ci =>
      have h' : p.tracks ≠ [] ∧ ci < p.tracks.length := by
        have hh := h
        simp [StateInv, hci] at hh
        exact hh
      have hlen : 0 < p.tracks.length := List.length_pos.mpr h'.1
      have hb0 : (p.tracks.length : Int) ≠ 0 := by omega
      have hbp : (0 : Int) < (p.tracks.length : Int) := by omega
      have hm1 := Int.emod_nonneg ((ci : Int) - 1) hb0
      have hm2 := Int.emod_lt_of_pos ((ci : Int) - 1) hbp
      have hmod : (((ci : Int) - 1) % (p.tracks.length : Int)).toNat < p.tracks.length := by
        omega
      exact stateInv_set_state _ _ (stateInv_set_index p _ h'.1 hmod)
  have hmon : StateInv (monitor_cycle_f p b ok).player := by
    by_cases hst : p.state = Status.playing
    case neg =>
      simp [monitor_cycle_f, hst]
      exact h
    case pos =>
      cases b with
      | true =>
        simp [monitor_cycle_f, hst]
        exact h
      | false =>
        cases hci : p.current_index with
        | none =>
          simp [monitor_cycle_f, hst, hci]
          exact h
        | some ci =>
          have h' : p.tracks ≠ [] ∧ ci < p.tracks.length := by
            have hh := h
            simp [StateInv, hci] at hh
            exact hh
          have hlen : 0 < p.tracks.length := List.length_pos.mpr h'.1
          by_cases hcond : (ci : Int) = (p.tracks.length : Int) - 1 ∧ p.loop = false
          · simp [monitor_cycle_f, hst, hci, hcond, StateInv]
            exact ⟨h'.1, h'.2⟩
          · cases ok with
            | true =>
              simp [monitor_cycle_f, hst, hci, hcond, play_current, StateInv]
              exact ⟨h'.1, Nat.mod_lt _ hlen⟩
            | false =>
              simp [monitor_cycle_f, hst, hci, hcond, StateInv]
              exact ⟨h'.1, Nat.mod_lt _ hlen⟩
  exact ⟨hinit, hplay, hpause, hresume, hstop, hnext, hprev, hmon⟩

/-- C5 witness: the invariant holds at a concrete scanned directory and is
preserved from a concrete valid state. -/
theorem operations_preserve_stateInv_witness :
    StateInv (init ["b.mp3", "a.mp3", "notes.txt"] false) ∧
    StateInv (play ⟨["a.mp3", "b.mp3"], false, some 0, Status.stopped⟩ (some 1)).1 ∧
    StateInv (pause ⟨["a.mp3", "b.mp3"], false, some 0, Status.stopped⟩).1 ∧
    StateInv (resume ⟨["a.mp3", "b.mp3"], false, some 0, Status.stopped⟩).1 ∧
    StateInv (stop ⟨["a.mp3", "b.mp3"], false, some 0, Status.stopped⟩).1 ∧
    StateInv (next_track ⟨["a.mp3", "b.mp3"], false, some 0, Status.stopped⟩).1 ∧
    StateInv (previous_track ⟨["a.mp3", "b.mp3"], false, some 0, Status.stopped⟩).1 ∧
    StateInv (monitor_cycle_f ⟨["a.mp3", "b.mp3"], false, some 0, Status.stopped⟩
      false true).player :=
  operations_preserve_stateInv ["b.mp3", "a.mp3", "notes.txt"] false
    ⟨["a.mp3", "b.mp3"], false, some 0, Status.stopped⟩ (some 1) false true (by decide)

/-- C6 counterexample: with an empty playlist every integer is outside
`[0, N) = [0, 0)`, yet `play 0` reports the empty-playlist condition — the
out-of-range message is never emitted, so the claim's "reports an
out-of-range condition" fails at this input (state and engine silence still
hold). -/
theorem play_out_of_range_empty_counterexample :
    (play ⟨[], false, none, Status.stopped⟩ (some 0)).2
      = [Event.msg "Playlist is empty."] ∧
    Event.msg "Index 0 out of range." ∉ (play ⟨[], false, none, Status.stopped⟩ (some 0)).2 := by
  decide

/-- C6 (amended): `play(i)` with `i` outside `[0, N)` changes nothing and
performs no engine call; on a non-empty playlist it reports the
out-of-range condition, while on an empty playlist (where every integer is
out of range) it reports the empty-playlist condition instead. -/
theorem play_invalid_index_noop (p : Player) (i : Int)
    (hout : i < 0 ∨ (p.tracks.length : Int) ≤ i) :
    (play p (some i)).1 = p ∧
    (play p (some i)).2.filter Event.isEngineEvent = [] ∧
    (p.tracks ≠ [] → Event.msg s!"Index {i} out of range." ∈ (play p (some i)).2) ∧
    (p.tracks = [] → (play p (some i)).2 = [Event.msg "Playlist is empty."]) := by
  unfold play
  cases hemp : p.tracks.isEmpty with
  | true =>
    have he : p.tracks = [] := by simpa using hemp
    simp [he, Event.isEngineEvent]
  | false =>
    have hne : p.tracks ≠ [] := by simpa using hemp
    simp [hout, hne, Event.isEngineEvent]

/-- C6 witness: index 5 on a one-track playlist is rejected without any
state change or engine call. -/
theorem play_invalid_index_noop_witness :
    (play ⟨["a.mp3"], false, some 0, Status.stopped⟩ (some 5)).1
      = ⟨["a.mp3"], false, some 0, Status.stopped⟩ ∧
    (play ⟨["a.mp3"], false, some 0, Status.stopped⟩ (some 5)).2.filter
      Event.isEngineEvent = [] ∧
    ((["a.mp3"] : List String) ≠ [] →
      Event.msg "Index 5 out of range."
        ∈ (play ⟨["a.mp3"], false, some 0, Status.stopped⟩ (some 5)).2) ∧
    ((["a.mp3"] : List String) = [] →
      (play ⟨["a.mp3"], false, some 0, Status.stopped⟩ (some 5)).2
        = [Event.msg "Playlist is empty."]) :=
  play_invalid_index_noop ⟨["a.mp3"], false, some 0, Status.stopped⟩ 5 (by decide)

/-- C7: `pause` changes state (to paused, issuing the engine pause) exactly
when the status is playing and otherwise reports a condition and changes
nothing; `resume` changes state (to playing, issuing the engine unpause)
exactly when the status is paused and otherwise reports a condition and
changes nothing.  Stated as full trace equalities, so the reported message
and the absence of any other effect are both pinned down. -/
theorem pause_resume_guarded (p : Player) :
    (pause p).1 = (if p.state = Status.playing then { p with state := Status.paused } else p) ∧
    (pause p).2 = (if p.state = Status.playing
      then [Event.lockAcquire, Event.readStatus, Event.engPause, Event.writeStatus,
            Event.msg "Paused.", Event.lockRelease]
      else [Event.lockAcquire, Event.readStatus,
            Event.msg "Nothing is currently playing.", Event.lockRelease]) ∧
    (resume p).1 = (if p.state = Status.paused then { p with state := Status.playing } else p) ∧
    (resume p).2 = (if p.state = Status.paused
      then [Event.lockAcquire, Event.readStatus, Event.engUnpause, Event.writeStatus,
            Event.msg "Resumed.", Event.lockRelease]
      else [Event.lockAcquire, Event.readStatus,
            Event.msg "Player is not paused.", Event.lockRelease]) := by
  rcases p with ⟨t, l, ci, st⟩
  cases st <;> simp [pause, resume]

/-- `-1` modulo a positive `N` is `N - 1` (Python-style nonnegative
remainder). -/
lemma neg_one_emod (N : Nat) (hN : 0 < N) : (-1 : Int) % (N : Int) = (N : Int) - 1 := by
  have h2 : ((-1 : Int) + (N : Int) * 1) % (N : Int) = (-1 : Int) % (N : Int) :=
    Int.add_mul_emod_self_left (-1) (N : Int) 1
  have h3 : (-1 : Int) + (N : Int) * 1 = (N : Int) - 1 := by ring
  rw [h3] at h2
  rw [← h2]
  exact Int.emod_eq_of_lt (by omega) (by omega)

/-- Stepping back by one modulo `N` after stepping forward by one modulo `N`
returns to the start, for a start below `N`. -/
lemma prev_of_next_cancel (ci N : Nat) (hlt : ci < N) :
    (((ci : Int) + 1) % (N : Int) - 1) % (N : Int) = (ci : Int) := by
  rcases Nat.lt_or_ge (ci + 1) N with hs | hs
  · have e1 : ((ci : Int) + 1) % (N : Int) = (ci : Int) + 1 :=
      Int.emod_eq_of_lt (by omega) (by omega)
    rw [e1]
    have h0 : (ci : Int) + 1 - 1 = (ci : Int) := by ring
    rw [h0]
    exact Int.emod_eq_of_lt (by omega) (by omega)
  · have hN : (ci : Int) + 1 = (N : Int) := by omega
    rw [hN, Int.emod_self]
    have h1 : (0 : Int) - 1 = -1 := by ring
    rw [h1, neg_one_emod N (by omega)]
    omega

/-- Stepping forward by one modulo `N` after stepping back by one modulo `N`
returns to the start, for a start below `N`. -/
lemma next_of_prev_cancel (ci N : Nat) (hlt : ci < N) :
    ((((ci : Int) - 1) % (N : Int)).toNat + 1) % N = ci := by
  cases ci with
  | zero =>
    have h4 : ((0 : Nat) : Int) - 1 = -1 := by omega
    rw [h4, neg_one_emod N (by omega)]
    have h5 : ((N : Int) - 1).toNat = N - 1 := by omega
    rw [h5]
    have h6 : N - 1 + 1 = N := by omega
    rw [h6, Nat.mod_self]
  | succ k =>
    have h0 : ((k + 1 : Nat) : Int) - 1 = (k : Int) := by omega
    have e1 : (k : Int) % (N : Int) = (k : Int) :=
      Int.emod_eq_of_lt (by omega) (by omega)
    rw [h0, e1]
    have h1 : ((k : Int)).toNat = k := by omega
    rw [h1]
    exact Nat.mod_eq_of_lt hlt

/-- C8: for a playlist with more than one track and any in-range starting
index, `next` then `previous` (and `previous` then `next`) restores the
original `current_index`. -/
theorem next_previous_roundtrip (p : Player) (ci : Nat)
    (hN : 1 < p.tracks.length)
    (hci : p.current_index = some ci)
    (hlt : ci < p.tracks.length) :
    (previous_track (next_track p).1).1.current_index = some ci ∧
    (next_track (previous_track p).1).1.current_index = some ci := by
  rcases p with ⟨t, l, ci0, st⟩
  simp only at hci hN hlt
  subst hci
  constructor
  · simp [next_track, previous_track, play_current]
    rw [prev_of_next_cancel ci t.length hlt]
    omega
  · simp [next_track, previous_track, play_current]
    exact next_of_prev_cancel ci t.length hlt

/-- C8 witness: three tracks, starting at the last index. -/
theorem next_previous_roundtrip_witness :
    (previous_track
      (next_track ⟨["a.mp3", "b.mp3", "c.mp3"], false, some 2, Status.stopped⟩).1).1.current_index
      = some 2 ∧
    (next_track
      (previous_track ⟨["a.mp3", "b.mp3", "c.mp3"], false, some 2, Status.stopped⟩).1).1.current_index
      = some 2 :=
  next_previous_roundtrip ⟨["a.mp3", "b.mp3", "c.mp3"], false, some 2, Status.stopped⟩ 2
    (by decide) rfl (by decide)

/-- C9 counterexample: `list_tracks` and `status` read the shared
`current_index` and `state` fields without acquiring the lock (their traces
contain shared-state reads outside any acquire/release span), so the claim
that every operation reading shared state holds the lock for its full
duration fails on them. -/
theorem unlocked_reads_counterexample :
    wellLocked (list_tracks ⟨["a.mp3"], false, some 0, Status.playing⟩) = false ∧
    wellLocked (status ⟨["a.mp3"], false, some 0, Status.playing⟩) = false ∧
    Event.readCI ∈ list_tracks ⟨["a.mp3"], false, some 0, Status.playing⟩ ∧
    Event.lockAcquire ∉ list_tracks ⟨["a.mp3"], false, some 0, Status.playing⟩ ∧
    Event.readCI ∈ status ⟨["a.mp3"], false, some 0, Status.playing⟩ ∧
    Event.lockAcquire ∉ status ⟨["a.mp3"], false, some 0, Status.playing⟩ := by
  decide

/-- C9 (amended): the mutating operations (`play`, `pause`, `resume`,
`stop`, `next_track`, `previous_track`) and every monitor cycle are lock
disciplined — all their reads and writes of the shared `current_index` and
`state` fields happen with the lock held, acquired and released around the
operation — but the read-only `list_tracks` and `status` read the shared
fields without taking the lock (see the counterexample). -/
theorem mutating_ops_well_locked (p : Player) (i : Option Int) (b ok : Bool) :
    wellLocked (play p i).2 = true ∧
    wellLocked (pause p).2 = true ∧
    wellLocked (resume p).2 = true ∧
    wellLocked (stop p).2 = true ∧
    wellLocked (next_track p).2 = true ∧
    wellLocked (previous_track p).2 = true ∧
    wellLocked (monitor_cycle_f p b ok).events = true := by
  refine ⟨?_, ?_, ?_, ?_, ?_, ?_, ?_⟩
  · cases hemp : p.tracks.isEmpty with
    | true => simp [play, hemp, wellLocked, wellLockedFrom]
    | false =>
      rcases i with _ | j
      · simp [play, hemp, wellLocked, wellLockedFrom]
      · by_cases hcond : j < 0 ∨ (p.tracks.length : Int) ≤ j
        · simp [play, hemp, hcond, wellLocked, wellLockedFrom]
        · simp [play, hemp, hcond, wellLocked, wellLockedFrom]
  · by_cases hst : p.state = Status.playing
    case neg => simp [pause, hst, wellLocked, wellLockedFrom]
    case pos => simp [pause, hst, wellLocked, wellLockedFrom]
  · by_cases hst : p.state = Status.paused
    case neg => simp [resume, hst, wellLocked, wellLockedFrom]
    case pos => simp [resume, hst, wellLocked, wellLockedFrom]
  · simp [stop, wellLocked, wellLockedFrom]
  · cases hci : p.current_index with
    | none => simp [next_track, hci, wellLocked, wellLockedFrom]
    | some ci => simp [next_track, hci, play_current, wellLocked, wellLockedFrom]
  · cases hci : p.current_index with
    | none => simp [previous_track, hci, wellLocked, wellLockedFrom]
    | some ci => simp [previous_track, hci, play_current, wellLocked, wellLockedFrom]
  · by_cases hst : p.state = Status.playing
    case neg => simp [monitor_cycle_f, hst, wellLocked, wellLockedFrom]
    case pos =>
      cases b with
      | true => simp [monitor_cycle_f, hst, wellLocked, wellLockedFrom]
      | false =>
        cases hci : p.current_index with
        | none => simp [monitor_cycle_f, hst, hci, wellLocked, wellLockedFrom]
        | some ci =>
          by_cases hcond : (ci : Int) = (p.tracks.length : Int) - 1 ∧ p.loop = false
          · simp [monitor_cycle_f, hst, hci, hcond, wellLocked, wellLockedFrom]
          · cases ok with
            | true =>
              simp [monitor_cycle_f, hst, hci, hcond, play_current, wellLocked,
                wellLockedFrom]
            | false =>
              simp [monitor_cycle_f, hst, hci, hcond, wellLocked, wellLockedFrom]

/-- C10: the playlist the player is constructed with is exactly the set of
directory entries ending in `.mp3`, in lexicographically sorted order — so
the indices `play(index)` accepts are determined by that sorted order. -/
theorem startup_playlist_sorted (directory : List String) (lp : Bool) :
    ((init directory lp).tracks).Sorted (· ≤ ·) ∧
    ((init directory lp).tracks).Perm
      (directory.filter fun name => name.endsWith ".mp3") ∧
    ∀ name, name ∈ (init directory lp).tracks ↔
      name ∈ directory ∧ name.endsWith ".mp3" = true := by
  refine ⟨?_, ?_, ?_⟩
  · exact List.sorted_mergeSort' _
  · exact List.mergeSort_perm _ _
  · intro name
    simp [init, find_mp3_files, List.mem_mergeSort, List.mem_filter]
